import Mathlib

/-!
Verification of the orchestration core of the marketplace-copilot backend.

The definitions below are shallow embeddings of:
  * `backend/app/api/endpoints/analyze.py`  (fallback orchestration)
  * `backend/app/agents/graph.py`           (dispatch, routers, joins, dedupe)
  * `backend/app/agents/graph_state.py`     (channel reducers)
  * `backend/app/agents/router_agent.py`    (intent routing)

Python floats appearing in the code (routing confidence, quality signals)
are modelled as rationals: the code only ever compares them against the
constants 0.6 and 1.0, and every value produced is a small integer ratio,
so no rounding behaviour is observable. Python dicts are modelled as
insertion-ordered association lists, strings as their character lists
where lower-casing / substring tests occur.
-/

/-! ## Character / substring utilities (model of Python `s.lower()` and `t in s`) -/

/-- Lower-cased character list of a string: model of Python `s.lower()`
(ASCII lowering; all keyword terms in the code are ASCII). -/
def lowerChars (s : String) : List Char :=
  s.data.map Char.toLower

/-- Boolean test that `pat` occurs at the start of `l`. -/
def hasPrefCh : List Char → List Char → Bool
  | [], _ => true
  | _ :: _, [] => false
  | a :: as, b :: bs => a == b && hasPrefCh as bs

/-- Boolean test that `pat` occurs contiguously anywhere in `l`:
model of Python `pat in l` on strings. -/
def hasSubCh (pat : List Char) : List Char → Bool
  | [] => hasPrefCh pat []
  | b :: bs => hasPrefCh pat (b :: bs) || hasSubCh pat bs

/-- Embeds `term in text` for an (already lower-cased) text. -/
def containsTerm (text : List Char) (term : String) : Bool :=
  hasSubCh term.data text

/-- Embeds `any(t in text for t in terms)`. -/
def containsAnyTerm (text : List Char) (terms : List String) : Bool :=
  terms.any (fun t => containsTerm text t)

/-! ## Data model

`backend/app/agents/state.py` as present under `src/` is an older revision
lacking the routing / control fields that `analyze.py`, `graph.py` and
`router_agent.py` read and write. Those fields are modelled from the spec
(§3 data model) and from their uses in the present source files. -/

/-- Embeds `QueryMode` enum from `state.py`. -/
inductive QueryMode where
  | weekly_plan
  | pricing
  | listing_seo
  | inventory
  | compliance
  | profitability
  | general_qa
  deriving DecidableEq, Repr

/-- The fixed universe of capability-flag names (`_INTENT_KEYS` in
`router_agent.py`). -/
inductive IntentKey where
  | need_sales
  | need_competitor
  | need_inventory
  | need_pricing
  | need_profit
  | need_listing_seo
  | need_compliance
  | need_rag
  deriving DecidableEq, Repr

/-- Modelled from the spec: the flag-set over the fixed universe of
capability names (`query.intent_flags`, a dict with exactly the keys of
`_INTENT_KEYS`; absent from the `state.py` revision under `src/`). -/
structure IntentFlags where
  need_sales : Bool := false
  need_competitor : Bool := false
  need_inventory : Bool := false
  need_pricing : Bool := false
  need_profit : Bool := false
  need_listing_seo : Bool := false
  need_compliance : Bool := false
  need_rag : Bool := false
  deriving DecidableEq, Repr

/-- Dictionary lookup `intent_flags.get(key, False)`. -/
def IntentFlags.get (fl : IntentFlags) : IntentKey → Bool
  | .need_sales => fl.need_sales
  | .need_competitor => fl.need_competitor
  | .need_inventory => fl.need_inventory
  | .need_pricing => fl.need_pricing
  | .need_profit => fl.need_profit
  | .need_listing_seo => fl.need_listing_seo
  | .need_compliance => fl.need_compliance
  | .need_rag => fl.need_rag

/-- Dictionary write `intent_flags[key] = b`. -/
def IntentFlags.set (fl : IntentFlags) (k : IntentKey) (b : Bool) : IntentFlags :=
  match k with
  | .need_sales => { fl with need_sales := b }
  | .need_competitor => { fl with need_competitor := b }
  | .need_inventory => { fl with need_inventory := b }
  | .need_pricing => { fl with need_pricing := b }
  | .need_profit => { fl with need_profit := b }
  | .need_listing_seo => { fl with need_listing_seo := b }
  | .need_compliance => { fl with need_compliance := b }
  | .need_rag => { fl with need_rag := b }

/-- A retrieved policy chunk (`RAGChunk`); only its presence in
`rag_context.chunks` is observable to the orchestration core. -/
structure RAGChunk where
  text : String
  source : Option String := none
  deriving DecidableEq, Repr

/-- Embeds `RAGContext` from `state.py` (the fields the orchestration reads). -/
structure RAGContext where
  query : String := ""
  chunks : List RAGChunk := []
  deriving DecidableEq, Repr

/-- Embeds `ActionItem` from `state.py` (the fields the orchestration reads;
`category` / `priority` / remaining metadata never influence control
flow and are folded into the payload-like fields kept here). -/
structure ActionItem where
  id : String
  product_id : Option String := none
  title : String := ""
  description : String := ""
  deriving DecidableEq, Repr

/-- Embeds `ActionPlan` from `state.py`. -/
structure ActionPlan where
  overall_summary : String := ""
  actions : List ActionItem := []
  deriving DecidableEq, Repr

/-- Modelled from the spec: `QueryContext` including the routing fields
(`intent_flags`, `routing_confidence`, `fallback_override_flag`) that are
absent from the `state.py` revision under `src/` but read and written by
`router_agent.py` and `analyze.py`. -/
structure QueryContext where
  raw_query : String := ""
  mode : QueryMode := .general_qa
  intent_flags : IntentFlags := {}
  routing_confidence : ℚ := mkRat 1 2
  fallback_override_flag : Option IntentKey := none
  deriving DecidableEq, Repr

/-- Modelled from the spec: the final-state document (`SellerState`)
restricted to the channels the orchestration core reads: query/routing,
RAG context, shared action plan, the three branch-scoped action
channels, and the quality-signal map (a `str -> float` dict, modelled as
an insertion-ordered association list). -/
structure SellerState where
  query : Option QueryContext := none
  rag_context : Option RAGContext := none
  action_plan : Option ActionPlan := none
  listing_branch_actions : List ActionItem := []
  pricing_branch_actions : List ActionItem := []
  profit_branch_actions : List ActionItem := []
  answer_quality_signals : List (String × ℚ) := []
  deriving DecidableEq, Repr

/-- Dict read with default: `signals.get(key, 0.0)`. -/
def sigGet (signals : List (String × ℚ)) (key : String) : ℚ :=
  match signals.find? (fun p => p.1 == key) with
  | some p => p.2
  | none => 0

/-- Insertion-ordered dict write `d[k] = v`: replaces in place if the key
is present, appends otherwise (CPython dict semantics). -/
def dictInsert {κ α : Type} [DecidableEq κ] : List (κ × α) → κ → α → List (κ × α)
  | [], k, v => [(k, v)]
  | (k0, v0) :: rest, k, v =>
      if k0 = k then (k, v) :: rest else (k0, v0) :: dictInsert rest k v

/-! ## Fallback orchestration (`analyze.py`) -/

/-- Embeds `_should_apply_fallback(query_text, state)` from `analyze.py`. -/
def shouldApplyFallback (query_text : String) (state : SellerState) : Bool :=
  match state.query with
  | none => false
  | some q =>
    if sigGet state.answer_quality_signals "fallback_applied" ≥ mkRat 1 1 then false
    else
      let low_confidence := decide (q.routing_confidence < mkRat 3 5)
      let weak_actions :=
        match state.action_plan with
        | none => true
        | some p => decide (p.actions.length < 2)
      let needs_citations :=
        containsTerm (lowerChars query_text) "citation" ||
        containsTerm (lowerChars query_text) "cite"
      let weak_rag := needs_citations &&
        (match state.rag_context with
         | none => true
         | some r => r.chunks.isEmpty)
      low_confidence && (weak_actions || weak_rag)

/-- Keyword bucket terms used by `_pick_fallback_flag` in `analyze.py`
(note: these differ from the router's `_COMPLIANCE_TERMS` by the extra
term `"cite"`). -/
def fallbackComplianceTerms : List String :=
  ["policy", "compliance", "restricted", "guideline", "image", "title", "seo", "citation", "cite"]

/-- Pricing bucket terms of `_pick_fallback_flag`. -/
def fallbackPricingTerms : List String :=
  ["margin", "price", "profit", "competitor"]

/-- Inventory bucket terms of `_pick_fallback_flag`. -/
def fallbackInventoryTerms : List String :=
  ["stock", "stockout", "reorder", "demand"]

/-- Embeds `_pick_fallback_flag(query_text, state)` from `analyze.py`. -/
def pickFallbackFlag (query_text : String) (state : SellerState) : Option IntentKey :=
  match state.query with
  | none => none
  | some qc =>
    let intents := qc.intent_flags
    let q := lowerChars query_text
    if containsAnyTerm q fallbackComplianceTerms && !intents.need_compliance then
      some .need_compliance
    else if containsAnyTerm q fallbackPricingTerms && !intents.need_pricing then
      some .need_pricing
    else if containsAnyTerm q fallbackInventoryTerms && !intents.need_inventory then
      some .need_inventory
    else if !intents.need_compliance then some .need_compliance
    else if !intents.need_pricing then some .need_pricing
    else if !intents.need_inventory then some .need_inventory
    else none

/-- The write `state.answer_quality_signals["fallback_applied"] = 1.0`
performed by the `analyze` endpoint on the cloned rerun input and on the
rerun result. -/
def markFallbackApplied (st : SellerState) : SellerState :=
  { st with answer_quality_signals :=
      dictInsert st.answer_quality_signals "fallback_applied" (mkRat 1 1) }

/-- The write `state.query.fallback_override_flag = chosen` performed by
the `analyze` endpoint (guarded on the query being present). -/
def setOverrideFlag (chosen : IntentKey) (st : SellerState) : SellerState :=
  { st with query :=
      match st.query with
      | some q => some { q with fallback_override_flag := some chosen }
      | none => none }

/-- The fallback block of the `analyze` endpoint (lines 399-416 of
`analyze.py`): given the graph runner, the raw request query, and the
final state of the first run, optionally performs the single fallback
rerun. Returns the resulting state and whether a rerun happened. -/
def analyzeFallbackStep (runGraph : SellerState → SellerState)
    (queryText : String) (finalState : SellerState) : SellerState × Bool :=
  if shouldApplyFallback queryText finalState then
    match pickFallbackFlag queryText finalState, finalState.query with
    | some chosen, some _ =>
        let rerunState := markFallbackApplied (setOverrideFlag chosen finalState)
        let result := runGraph rerunState
        (setOverrideFlag chosen (markFallbackApplied result), true)
    | _, _ => (finalState, false)
  else (finalState, false)

example :
    shouldApplyFallback "please cite the policy"
      { query := some { routing_confidence := mkRat 1 2 },
        action_plan := some { actions := [{ id := "a1" }, { id := "a2" }] } } = true := by
  decide

example :
    shouldApplyFallback "hello"
      { query := some { routing_confidence := mkRat 1 2 },
        action_plan := some { actions := [{ id := "a1" }, { id := "a2" }] } } = false := by
  decide

example :
    pickFallbackFlag "check stock levels" { query := some {} } = some .need_inventory := by
  decide

/-! ## Dispatch, routers and join (`graph.py`) -/

/-- Embeds `_ANALYSIS_BRANCHES` from `graph.py`. -/
def analysisBranches : List String := ["sales", "competitor", "inventory", "rag"]

/-- Embeds `_ACTION_BRANCHES` from `graph.py`. -/
def actionBranches : List String := ["listing", "pricing", "profit"]

/-- Embeds `_dedupe_actions(actions)` from `graph.py`, written with its `seen`
set of already-emitted non-empty ids made explicit. -/
def dedupeGo (seen : List String) : List ActionItem → List ActionItem
  | [] => []
  | a :: rest =>
      if a.id = "" then a :: dedupeGo seen rest
      else if a.id ∈ seen then dedupeGo seen rest
      else a :: dedupeGo (a.id :: seen) rest

/-- Embeds `_dedupe_actions(actions)` from `graph.py`: keeps the first occurrence
of every non-empty id; actions with an empty id are always kept. -/
def dedupeActions (actions : List ActionItem) : List ActionItem :=
  dedupeGo [] actions

/-- The `seen` set accumulated by `_dedupe_actions` after a list has been
processed (used to reason about processing concatenations). -/
def dedupeSeen (seen : List String) : List ActionItem → List String
  | [] => seen
  | a :: rest =>
      if a.id = "" then dedupeSeen seen rest
      else if a.id ∈ seen then dedupeSeen seen rest
      else dedupeSeen (a.id :: seen) rest

/-- Embeds `action_join_node(state)` from `graph.py`: concatenates the prior
shared plan with the three branch-scoped action channels in declared
branch order and de-duplicates by id. -/
def actionJoinNode (state : SellerState) : ActionPlan :=
  let plan : ActionPlan :=
    match state.action_plan with
    | none => { overall_summary := "", actions := [] }
    | some p => p
  let merged := plan.actions ++ state.listing_branch_actions
      ++ state.pricing_branch_actions ++ state.profit_branch_actions
  { plan with actions := dedupeActions merged }

/-- The active-branch list computed by `analysis_dispatch_node` in
`graph.py` (appends in the fixed order sales, competitor, inventory, rag;
`rag` activates on `need_rag` or `need_compliance`). -/
def analysisDispatchActive (fl : IntentFlags) : List String :=
  (if fl.need_sales then ["sales"] else []) ++
  (if fl.need_competitor then ["competitor"] else []) ++
  (if fl.need_inventory then ["inventory"] else []) ++
  (if fl.need_rag || fl.need_compliance then ["rag"] else [])

/-- The skipped-branch list of `analysis_dispatch_node`:
`[b for b in _ANALYSIS_BRANCHES if b not in active]`. -/
def analysisDispatchSkipped (fl : IntentFlags) : List String :=
  analysisBranches.filter (fun b => !(analysisDispatchActive fl).contains b)

/-- A `_record_skip(node_name, "intent_not_required")` trace entry. -/
def skipEntry (b : String) : String :=
  "agent=" ++ b ++ " skipped reason=intent_not_required"

/-- The execution-trace contribution of `analysis_dispatch_node`: the
step record followed by one skip entry per skipped branch. -/
def analysisDispatchTrace (fl : IntentFlags) : List String :=
  "agent=analysis_dispatch" :: (analysisDispatchSkipped fl).map skipEntry

/-- The active-branch list computed by `action_dispatch_node` in
`graph.py` (fixed order listing, pricing, profit). -/
def actionDispatchActive (fl : IntentFlags) : List String :=
  (if fl.need_listing_seo then ["listing"] else []) ++
  (if fl.need_pricing then ["pricing"] else []) ++
  (if fl.need_profit then ["profit"] else [])

/-- The skipped-branch list of `action_dispatch_node`. -/
def actionDispatchSkipped (fl : IntentFlags) : List String :=
  actionBranches.filter (fun b => !(actionDispatchActive fl).contains b)

/-- The execution-trace contribution of `action_dispatch_node`. -/
def actionDispatchTrace (fl : IntentFlags) : List String :=
  "agent=action_dispatch" :: (actionDispatchSkipped fl).map skipEntry

/-- Embeds `_intent(state, key)` from `graph.py`: reads a flag off the state's
query, defaulting to false when the query is absent. -/
def intentOf (state : SellerState) (k : IntentKey) : Bool :=
  match state.query with
  | none => false
  | some q => q.intent_flags.get k

/-- Embeds `_analysis_targets(state)` from `graph.py`: conditional-edge router
for the analysis fan-out; an empty target list is replaced by the
convergence join (`targets or ["analysis_join"]`). -/
def analysisTargets (state : SellerState) : List String :=
  let targets :=
    (if intentOf state .need_sales then ["sales"] else []) ++
    (if intentOf state .need_competitor then ["competitor"] else []) ++
    (if intentOf state .need_inventory then ["inventory"] else []) ++
    (if intentOf state .need_rag || intentOf state .need_compliance then ["rag"] else [])
  if targets.isEmpty then ["analysis_join"] else targets

/-- Embeds `_action_targets(state)` from `graph.py`. -/
def actionTargets (state : SellerState) : List String :=
  let targets :=
    (if intentOf state .need_listing_seo then ["listing"] else []) ++
    (if intentOf state .need_pricing then ["pricing"] else []) ++
    (if intentOf state .need_profit then ["profit"] else [])
  if targets.isEmpty then ["action_join"] else targets

/-! ## Channel reducer `_merge_by_product_id` (`graph_state.py`) -/

/-- Embeds `_merge_by_product_id(existing, incoming)` from `graph_state.py`:
inserts every item of `existing` then of `incoming` into an
insertion-ordered dict keyed by `getattr(item, "product_id", None)` and
returns the dict's values. `key` abstracts the `product_id` accessor. -/
def mergeByProductId {α : Type} (key : α → Option String)
    (existing incoming : List α) : List α :=
  ((existing ++ incoming).foldl (fun acc a => dictInsert acc (key a) a) []).map Prod.snd

example :
    mergeByProductId (fun p : Option String × Nat => p.1)
      [(some "a", 1), (some "b", 2)] [(some "a", 9), (some "c", 3)]
      = [(some "a", 9), (some "b", 2), (some "c", 3)] := by
  decide

example :
    actionJoinNode
      { action_plan := some { actions := [{ id := "p" }] },
        listing_branch_actions := [{ id := "X", title := "l" }],
        pricing_branch_actions := [{ id := "X", title := "pr" }],
        profit_branch_actions := [] }
      = { overall_summary := "", actions := [{ id := "p" }, { id := "X", title := "l" }] } := by
  decide

/-! ## Intent routing (`router_agent.py`) -/

/-- Embeds `_COMPLIANCE_TERMS` from `router_agent.py` (no `"cite"`, unlike the
fallback picker's list in `analyze.py`). -/
def routerComplianceTerms : List String :=
  ["policy", "compliance", "restricted", "guideline", "image", "title", "seo", "citation"]

/-- Embeds `_PRICING_TERMS` from `router_agent.py`. -/
def routerPricingTerms : List String :=
  ["margin", "price", "profit", "competitor"]

/-- Embeds `_INVENTORY_TERMS` from `router_agent.py`. -/
def routerInventoryTerms : List String :=
  ["stock", "stockout", "reorder", "demand"]

/-- The per-bucket keyword counts returned by `_keyword_scores`. -/
structure KeywordScores where
  compliance : Nat
  pricing : Nat
  inventory : Nat
  deriving DecidableEq, Repr

/-- Embeds `_keyword_scores(raw_query)` from `router_agent.py`:
`sum(1 for term in TERMS if term in text)` per bucket, over the
lower-cased query. -/
def keywordScores (raw_query : String) : KeywordScores :=
  let text := lowerChars raw_query
  { compliance := (routerComplianceTerms.filter (fun t => containsTerm text t)).length,
    pricing := (routerPricingTerms.filter (fun t => containsTerm text t)).length,
    inventory := (routerInventoryTerms.filter (fun t => containsTerm text t)).length }

/-- Embeds `_apply_mode_defaults(mode, intents)` from `router_agent.py`,
starting from the all-false flag-set produced by `_empty_intents`. -/
def applyModeDefaults (mode : QueryMode) (intents : IntentFlags) : IntentFlags :=
  match mode with
  | .weekly_plan =>
      { need_sales := true, need_competitor := true, need_inventory := true,
        need_pricing := true, need_profit := true, need_listing_seo := true,
        need_compliance := true, need_rag := true }
  | .pricing =>
      { intents with need_sales := true, need_competitor := true, need_pricing := true, need_profit := true }
  | .listing_seo =>
      { intents with need_listing_seo := true, need_compliance := true, need_rag := true }
  | .inventory =>
      { intents with need_inventory := true, need_sales := true }
  | .compliance =>
      { intents with need_compliance := true, need_rag := true }
  | .profitability =>
      { intents with need_sales := true, need_pricing := true, need_profit := true }
  | .general_qa =>
      { intents with need_sales := true }

/-- Embeds `_apply_keyword_overlays(intents, raw_query)` from `router_agent.py`
(the score computation is factored out as `keywordScores`). -/
def applyKeywordOverlays (intents : IntentFlags) (scores : KeywordScores) : IntentFlags :=
  let intents :=
    if scores.compliance > 0 then
      { intents with need_compliance := true, need_rag := true, need_listing_seo := true }
    else intents
  let intents :=
    if scores.pricing > 0 then
      { intents with need_sales := true, need_competitor := true, need_pricing := true, need_profit := true }
    else intents
  if scores.inventory > 0 then
    { intents with need_inventory := true, need_sales := true }
  else intents

/-- Embeds `_routing_confidence(scores)` from `router_agent.py`:
`max(scores.values()) / total`, or 0.5 when no keyword matched. -/
def routingConfidence (scores : KeywordScores) : ℚ :=
  let total := scores.compliance + scores.pricing + scores.inventory
  if total = 0 then mkRat 1 2
  else mkRat (max (max scores.compliance scores.pricing) scores.inventory) total

/-- The keyword bucket names, used by the balanced-fallback step. -/
inductive BucketKind where
  | compliance
  | pricing
  | inventory
  deriving DecidableEq, Repr

/-- Embeds `max(scores, key=scores.get)` over the dict
`{compliance, pricing, inventory}`: Python's `max` keeps the first
maximal key in iteration (= insertion) order, replacing only on a
strictly greater value. -/
def strongestBucket (scores : KeywordScores) : BucketKind :=
  if scores.inventory > max scores.compliance scores.pricing then .inventory
  else if scores.pricing > scores.compliance then .pricing
  else .compliance

/-- The balanced-fallback block of `update_query_routing` (executed when
the confidence is below 0.6): always keeps the core sales branch and adds
the strongest matched bucket's branch flags. -/
def balancedFallback (intents : IntentFlags) (scores : KeywordScores) : IntentFlags :=
  let intents := { intents with need_sales := true }
  match strongestBucket scores with
  | .compliance =>
      if scores.compliance > 0 then
        { intents with need_rag := true, need_compliance := true }
      else intents
  | .pricing =>
      if scores.pricing > 0 then
        { intents with need_competitor := true, need_pricing := true, need_profit := true }
      else intents
  | .inventory =>
      if scores.inventory > 0 then
        { intents with need_inventory := true }
      else intents

/-- The override block at the end of `update_query_routing`: forces the
override flag on, together with the companion flags its branch needs. -/
def applyOverride (flag : IntentKey) (intents : IntentFlags) : IntentFlags :=
  let intents := intents.set flag true
  match flag with
  | .need_compliance => { intents with need_rag := true }
  | .need_pricing =>
      { intents with need_sales := true, need_competitor := true, need_profit := true }
  | .need_inventory => { intents with need_sales := true }
  | _ => intents

/-- The intent flag-set computed by `update_query_routing` before the
override block: mode defaults, keyword overlays, then the balanced
fallback when confidence is below 0.6. -/
def routerBaseFlags (raw_query : String) (mode : QueryMode) : IntentFlags :=
  let intents := applyModeDefaults mode {}
  let scores := keywordScores raw_query
  let intents := applyKeywordOverlays intents scores
  let confidence := routingConfidence scores
  if confidence < mkRat 3 5 then balancedFallback intents scores else intents

/-- The intent flag-set computed by `update_query_routing` in
`router_agent.py` for a query with the given raw text, resolved mode and
optional fallback override flag. -/
def routerFlags (raw_query : String) (mode : QueryMode)
    (override : Option IntentKey) : IntentFlags :=
  match override with
  | none => routerBaseFlags raw_query mode
  | some flag => applyOverride flag (routerBaseFlags raw_query mode)

example :
    routerFlags "Improve margin and avoid policy violations for image/title" .general_qa none
      = { need_sales := true, need_competitor := true, need_pricing := true,
          need_profit := true, need_listing_seo := true, need_compliance := true,
          need_rag := true } := by
  decide

example :
    routerFlags "Help me reprice this SKU for better margin" .pricing none
      = { need_sales := true, need_competitor := true, need_pricing := true,
          need_profit := true } := by
  decide

example : routerFlags "" .general_qa none = { need_sales := true } := by
  decide

/-! ## Spec-side formulations used by the refinement claims -/

/-- The merged input list built by `action_join_node` before dedup: prior
shared plan actions, then the listing / pricing / profit branch channels
in router-declared branch order. -/
def joinMergedInput (st : SellerState) : List ActionItem :=
  (match st.action_plan with
   | none => []
   | some p => p.actions) ++
  st.listing_branch_actions ++ st.pricing_branch_actions ++ st.profit_branch_actions

/-- The keyword buckets of the fallback flag picker, in the fixed order
declared by the spec: compliance, pricing, inventory. -/
def fallbackBuckets : List (IntentKey × List String) :=
  [(.need_compliance, fallbackComplianceTerms),
   (.need_pricing, fallbackPricingTerms),
   (.need_inventory, fallbackInventoryTerms)]

/-- Spec formulation of the fallback flag picker (§4.4): the first bucket
whose keyword list matches the lower-cased query and whose flag is not
already set; otherwise the first bucket, in the same fixed order, whose
flag is not already set. -/
def pickFallbackFlagSpec (query_text : String) (q : QueryContext) : Option IntentKey :=
  match fallbackBuckets.find?
      (fun b => containsAnyTerm (lowerChars query_text) b.2 && !q.intent_flags.get b.1) with
  | some b => some b.1
  | none =>
      (fallbackBuckets.find? (fun b => !q.intent_flags.get b.1)).map Prod.fst

/-- First-occurrence de-duplication of a key list (used to describe the
key order produced by the insertion-ordered dict of the MergeByKey
reducer). -/
def dedupFirst {κ : Type} [DecidableEq κ] : List κ → List κ
  | [] => []
  | k :: rest => k :: dedupFirst (rest.filter (fun x => decide (x ≠ k)))
termination_by l => l.length
decreasing_by
  simp only [List.length_cons]
  exact Nat.lt_succ_of_le (List.length_filter_le _ _)

/-- The companion flags the router's override block forces in addition to
the override flag itself (`update_query_routing`, lines 179-188):
compliance pulls in RAG, pricing pulls in sales / competitor / profit,
inventory pulls in sales. -/
def overrideCompanion : IntentKey → IntentKey → Bool
  | .need_compliance, .need_rag => true
  | .need_pricing, .need_sales => true
  | .need_pricing, .need_competitor => true
  | .need_pricing, .need_profit => true
  | .need_inventory, .need_sales => true
  | _, _ => false

/-! ## Helper lemmas -/

theorem sigGet_dictInsert (d : List (String × ℚ)) (k : String) (v : ℚ) :
    sigGet (dictInsert d k v) k = v := by
  induction d with
  | nil => simp [sigGet, dictInsert]
  | cons p rest ih =>
      obtain ⟨k0, v0⟩ := p
      by_cases h : k0 = k
      · subst h
        simp [sigGet, dictInsert]
      · simpa [sigGet, dictInsert, h, List.find?] using ih

theorem trigger_false_of_marked (qt : String) (st : SellerState)
    (h : sigGet st.answer_quality_signals "fallback_applied" ≥ mkRat 1 1) :
    shouldApplyFallback qt st = false := by
  cases hq : st.query with
  | none => simp [shouldApplyFallback, hq]
  | some q =>
      have h1 : ¬ sigGet st.answer_quality_signals "fallback_applied" < 1 := by
        have h11 : (mkRat 1 1 : ℚ) = 1 := by decide
        rw [h11] at h
        exact not_lt.mpr h
      simp [shouldApplyFallback, hq, h1]

/-- C1: for every final state with a populated query whose quality-signal
map does not already mark fallback as applied, `_should_apply_fallback`
returns true iff the routing confidence is strictly below 0.6 and (the
action plan is absent or has fewer than 2 items, or the raw query text
contains "citation" or "cite" while the retrieved RAG context is absent
or has no chunks). -/
theorem fallback_trigger_characterization (query_text : String) (st : SellerState)
    (q : QueryContext) (hq : st.query = some q)
    (hsig : sigGet st.answer_quality_signals "fallback_applied" < mkRat 1 1) :
    shouldApplyFallback query_text st = true ↔
      (q.routing_confidence < mkRat 3 5 ∧
        ((∀ p, st.action_plan = some p → p.actions.length < 2) ∨
          ((containsTerm (lowerChars query_text) "citation" = true ∨
              containsTerm (lowerChars query_text) "cite" = true) ∧
            (∀ r, st.rag_context = some r → r.chunks = [])))) := by
  have hnot : ¬ sigGet st.answer_quality_signals "fallback_applied" ≥ mkRat 1 1 :=
    not_le.mpr hsig
  have hsig1 : sigGet st.answer_quality_signals "fallback_applied" < 1 := by
    have h11 : (mkRat 1 1 : ℚ) = 1 := by decide
    rw [h11] at hsig
    exact hsig
  unfold shouldApplyFallback
  rw [hq]
  rcases hplan : st.action_plan with _ | p <;> rcases hrag : st.rag_context with _ | r <;>
    simp [hnot, hsig1, List.isEmpty_iff, Bool.and_eq_true, Bool.or_eq_true,
      decide_eq_true_iff]

/-- Witness for C1 at a concrete state: low confidence, no action plan,
no fallback signal; the trigger fires. -/
theorem fallback_trigger_characterization_witness :
    shouldApplyFallback "hello"
      { query := some { routing_confidence := mkRat 1 2 } } = true :=
  (fallback_trigger_characterization "hello"
      { query := some { routing_confidence := mkRat 1 2 } }
      { routing_confidence := mkRat 1 2 } rfl (by decide)).mpr
    ⟨by decide, Or.inl (fun p h => nomatch h)⟩

theorem setOverrideFlag_signals (c : IntentKey) (st : SellerState) :
    (setOverrideFlag c st).answer_quality_signals = st.answer_quality_signals := rfl

theorem marked_rerun_result_signal (c : IntentKey) (st : SellerState) :
    sigGet (setOverrideFlag c (markFallbackApplied st)).answer_quality_signals
      "fallback_applied" = mkRat 1 1 := by
  rw [setOverrideFlag_signals]
  show sigGet (dictInsert st.answer_quality_signals "fallback_applied" (mkRat 1 1))
      "fallback_applied" = mkRat 1 1
  exact sigGet_dictInsert _ _ _

/-- C2: a state whose quality-signal map marks fallback as applied
(value at least 1.0) never triggers the fallback predicate, and — since
the orchestrator marks the signal on the rerun input and on the rerun
result — applying the fallback step of the `analyze` endpoint to the
output of a previous fallback step never reruns the graph and leaves the
state unchanged: at most one fallback rerun per request. -/
theorem fallback_single_shot (g : SellerState → SellerState) (qt : String)
    (st : SellerState) :
    (sigGet st.answer_quality_signals "fallback_applied" ≥ mkRat 1 1 →
      shouldApplyFallback qt st = false) ∧
    analyzeFallbackStep g qt (analyzeFallbackStep g qt st).1 =
      ((analyzeFallbackStep g qt st).1, false) := by
  constructor
  · exact fun h => trigger_false_of_marked qt st h
  · by_cases hs : shouldApplyFallback qt st = true
    · rcases hp : pickFallbackFlag qt st with _ | chosen
      · have h1 : analyzeFallbackStep g qt st = (st, false) := by
          unfold analyzeFallbackStep
          rw [if_pos hs, hp]
        rw [h1]
        exact h1
      · rcases hq : st.query with _ | q
        · exfalso
          have hfalse : shouldApplyFallback qt st = false := by
            unfold shouldApplyFallback
            rw [hq]
          rw [hfalse] at hs
          cases hs
        · have h1 : analyzeFallbackStep g qt st =
              (setOverrideFlag chosen
                (markFallbackApplied (g (markFallbackApplied (setOverrideFlag chosen st)))),
               true) := by
            unfold analyzeFallbackStep
            rw [if_pos hs, hp, hq]
          rw [h1]
          have h2 : shouldApplyFallback qt
              (setOverrideFlag chosen
                (markFallbackApplied (g (markFallbackApplied (setOverrideFlag chosen st))))) =
              false :=
            trigger_false_of_marked _ _ (le_of_eq (marked_rerun_result_signal _ _).symm)
          unfold analyzeFallbackStep
          rw [if_neg (by simp [h2])]
    · have h1 : analyzeFallbackStep g qt st = (st, false) := by
        unfold analyzeFallbackStep
        rw [if_neg hs]
      rw [h1]
      exact h1

/-- Witness for C2 at a concrete marked state. -/
theorem fallback_single_shot_witness :
    shouldApplyFallback "q"
      { query := some {},
        answer_quality_signals := [("fallback_applied", mkRat 1 1)] } = false ∧
    analyzeFallbackStep id "q"
      (analyzeFallbackStep id "q"
        { query := some {},
          answer_quality_signals := [("fallback_applied", mkRat 1 1)] }).1 =
      ((analyzeFallbackStep id "q"
        { query := some {},
          answer_quality_signals := [("fallback_applied", mkRat 1 1)] }).1, false) :=
  ⟨(fallback_single_shot id "q"
      { query := some {},
        answer_quality_signals := [("fallback_applied", mkRat 1 1)] }).1 (by decide),
   (fallback_single_shot id "q"
      { query := some {},
        answer_quality_signals := [("fallback_applied", mkRat 1 1)] }).2⟩

/-- C8: when none of the relevant intent flags is true, each conditional
router returns exactly the singleton list naming its convergence join —
`_action_targets` returns `["action_join"]` when need_listing_seo,
need_pricing and need_profit are all false, and `_analysis_targets`
returns `["analysis_join"]` when need_sales, need_competitor,
need_inventory, need_rag and need_compliance are all false. -/
theorem empty_fanout_routes_to_join (st : SellerState) :
    (intentOf st .need_listing_seo = false → intentOf st .need_pricing = false →
      intentOf st .need_profit = false → actionTargets st = ["action_join"]) ∧
    (intentOf st .need_sales = false → intentOf st .need_competitor = false →
      intentOf st .need_inventory = false → intentOf st .need_rag = false →
      intentOf st .need_compliance = false → analysisTargets st = ["analysis_join"]) := by
  constructor
  · intro h1 h2 h3
    unfold actionTargets
    rw [h1, h2, h3]
    simp
  · intro h1 h2 h3 h4 h5
    unfold analysisTargets
    rw [h1, h2, h3, h4, h5]
    simp

/-- Witness for C8 at the state with no query (all intents read false). -/
theorem empty_fanout_routes_to_join_witness :
    actionTargets {} = ["action_join"] ∧ analysisTargets {} = ["analysis_join"] :=
  ⟨(empty_fanout_routes_to_join {}).1 rfl rfl rfl,
   (empty_fanout_routes_to_join {}).2 rfl rfl rfl rfl rfl⟩

/-- C3: on a state with a populated query, `_pick_fallback_flag` returns
the flag of the first bucket of the fixed ordered list (compliance,
pricing, inventory) whose keyword list matches the lower-cased query and
whose need flag is not already set, and otherwise the flag of the first
of the same three buckets, in that fixed order, not already set. -/
theorem pick_fallback_flag_first_bucket (qt : String) (st : SellerState)
    (q : QueryContext) (hq : st.query = some q) :
    pickFallbackFlag qt st = pickFallbackFlagSpec qt q := by
  unfold pickFallbackFlag pickFallbackFlagSpec fallbackBuckets
  rw [hq]
  cases h1 : containsAnyTerm (lowerChars qt) fallbackComplianceTerms <;>
  cases h2 : containsAnyTerm (lowerChars qt) fallbackPricingTerms <;>
  cases h3 : containsAnyTerm (lowerChars qt) fallbackInventoryTerms <;>
  cases f1 : q.intent_flags.need_compliance <;>
  cases f2 : q.intent_flags.need_pricing <;>
  cases f3 : q.intent_flags.need_inventory <;>
    simp [List.find?, IntentFlags.get, h1, h2, h3, f1, f2, f3]

/-- Witness for C3 at a concrete query matching the inventory bucket. -/
theorem pick_fallback_flag_first_bucket_witness :
    pickFallbackFlag "check stock levels" { query := some {} } =
      pickFallbackFlagSpec "check stock levels" {} :=
  pick_fallback_flag_first_bucket "check stock levels" { query := some {} } {} rfl

/-- C10: if the fallback trigger fires but all three candidate flags
(need_compliance, need_pricing, need_inventory) are already set on the
final document, the flag picker returns none and the orchestrator
performs no rerun: the original result is returned unchanged (so the
fallback-applied signal stays as it was, unset). -/
theorem fallback_all_flags_set_no_rerun (g : SellerState → SellerState) (qt : String)
    (st : SellerState) (q : QueryContext) (hq : st.query = some q)
    (htrig : shouldApplyFallback qt st = true)
    (h1 : q.intent_flags.need_compliance = true)
    (h2 : q.intent_flags.need_pricing = true)
    (h3 : q.intent_flags.need_inventory = true) :
    pickFallbackFlag qt st = none ∧ analyzeFallbackStep g qt st = (st, false) := by
  have hpick : pickFallbackFlag qt st = none := by
    unfold pickFallbackFlag
    rw [hq]
    simp [h1, h2, h3]
  refine ⟨hpick, ?_⟩
  unfold analyzeFallbackStep
  rw [if_pos htrig, hpick]

/-- Witness for C10 at a concrete state with low confidence, no plan and
all three candidate flags set. -/
theorem fallback_all_flags_set_no_rerun_witness :
    pickFallbackFlag "x"
      { query := some { intent_flags :=
          { need_compliance := true, need_pricing := true, need_inventory := true } } } =
      none ∧
    analyzeFallbackStep id "x"
      { query := some { intent_flags :=
          { need_compliance := true, need_pricing := true, need_inventory := true } } } =
      ({ query := some { intent_flags :=
          { need_compliance := true, need_pricing := true, need_inventory := true } } },
       false) :=
  fallback_all_flags_set_no_rerun id "x"
    { query := some { intent_flags :=
        { need_compliance := true, need_pricing := true, need_inventory := true } } }
    { intent_flags :=
        { need_compliance := true, need_pricing := true, need_inventory := true } }
    rfl (by decide) rfl rfl rfl

theorem applyOverride_get (b : IntentFlags) (f g : IntentKey) :
    (applyOverride f b).get g =
      (b.get g || decide (g = f) || overrideCompanion f g) := by
  cases f <;> cases g <;>
    simp [applyOverride, IntentFlags.set, IntentFlags.get, overrideCompanion]

/-- C6 counterexample: forcing the override flag `need_compliance` on the
empty query does not merely add that one flag — the router also forces
`need_rag`, so the resulting flag-set differs from the base flag-set with
only `need_compliance` set. -/
theorem router_override_not_single_flag :
    routerFlags "" .general_qa (some .need_compliance) ≠
      (routerFlags "" .general_qa none).set .need_compliance true := by
  decide

/-- C6 (amended): running the router with override flag f yields the base
flag-set of the identical query with f set true together with f's
companion flags (need_rag for need_compliance; need_sales,
need_competitor and need_profit for need_pricing; need_sales for
need_inventory) — every other flag is unchanged. -/
theorem router_override_frame (raw : String) (mode : QueryMode)
    (f g : IntentKey) :
    (routerFlags raw mode (some f)).get g =
      ((routerFlags raw mode none).get g || decide (g = f) || overrideCompanion f g) := by
  simpa [routerFlags] using applyOverride_get (routerBaseFlags raw mode) f g

/-- C7: for every flag-set, each dispatch node partitions its static
branch universe — every branch name appears in exactly one of the active
and skipped lists, neither list contains duplicates, and for each
skipped name exactly one `intent_not_required` trace entry is emitted
(and none for active names). -/
theorem dispatch_partition (fl : IntentFlags) :
    ((∀ b ∈ analysisBranches,
        (b ∈ analysisDispatchActive fl ∧ b ∉ analysisDispatchSkipped fl) ∨
        (b ∉ analysisDispatchActive fl ∧ b ∈ analysisDispatchSkipped fl)) ∧
      (analysisDispatchActive fl).Nodup ∧ (analysisDispatchSkipped fl).Nodup ∧
      (∀ b ∈ analysisDispatchSkipped fl,
        (analysisDispatchTrace fl).count (skipEntry b) = 1) ∧
      (∀ b ∈ analysisDispatchActive fl,
        (analysisDispatchTrace fl).count (skipEntry b) = 0)) ∧
    ((∀ b ∈ actionBranches,
        (b ∈ actionDispatchActive fl ∧ b ∉ actionDispatchSkipped fl) ∨
        (b ∉ actionDispatchActive fl ∧ b ∈ actionDispatchSkipped fl)) ∧
      (actionDispatchActive fl).Nodup ∧ (actionDispatchSkipped fl).Nodup ∧
      (∀ b ∈ actionDispatchSkipped fl,
        (actionDispatchTrace fl).count (skipEntry b) = 1) ∧
      (∀ b ∈ actionDispatchActive fl,
        (actionDispatchTrace fl).count (skipEntry b) = 0)) := by
  obtain ⟨s, c, inv, p, pr, ls, cm, r⟩ := fl
  cases s <;> cases c <;> cases inv <;> cases p <;> cases pr <;> cases ls <;>
    cases cm <;> cases r <;> decide

/-- Witness for C7: with every flag false, each universe name is skipped
and receives exactly one skip-trace entry. -/
theorem dispatch_partition_witness :
    (analysisDispatchTrace {}).count (skipEntry "sales") = 1 ∧
    (actionDispatchTrace {}).count (skipEntry "listing") = 1 :=
  ⟨(dispatch_partition {}).1.2.2.2.1 "sales" (by decide),
   (dispatch_partition {}).2.2.2.2.1 "listing" (by decide)⟩

theorem dedupeGo_sublist (seen : List String) (l : List ActionItem) :
    List.Sublist (dedupeGo seen l) l := by
  induction l generalizing seen with
  | nil => simp [dedupeGo]
  | cons a rest ih =>
      simp only [dedupeGo]
      split_ifs with h1 h2
      · exact (ih seen).cons₂ a
      · exact (ih seen).cons a
      · exact (ih (a.id :: seen)).cons₂ a

theorem dedupeGo_filter_mem (seen : List String) (l : List ActionItem) (i : String)
    (hne : i ≠ "") (hmem : i ∈ seen) :
    (dedupeGo seen l).filter (fun a => a.id == i) = [] := by
  induction l generalizing seen with
  | nil => simp [dedupeGo]
  | cons a rest ih =>
      simp only [dedupeGo]
      split_ifs with h1 h2
      · have hf : (a.id == i) = false :=
          beq_eq_false_iff_ne.mpr (by rw [h1]; exact fun h => hne h.symm)
        simp [List.filter_cons, hf, ih seen hmem]
      · exact ih seen hmem
      · have hf : (a.id == i) = false :=
          beq_eq_false_iff_ne.mpr (fun h => h2 (h ▸ hmem))
        simp [List.filter_cons, hf, ih (a.id :: seen) (List.mem_cons_of_mem _ hmem)]

theorem dedupeGo_filter_not_mem (seen : List String) (l : List ActionItem) (i : String)
    (hne : i ≠ "") (hmem : i ∉ seen) :
    (dedupeGo seen l).filter (fun a => a.id == i) =
      (l.filter (fun a => a.id == i)).take 1 := by
  induction l generalizing seen with
  | nil => simp [dedupeGo]
  | cons a rest ih =>
      simp only [dedupeGo]
      split_ifs with h1 h2
      · have hf : (a.id == i) = false :=
          beq_eq_false_iff_ne.mpr (by rw [h1]; exact fun h => hne h.symm)
        simp [List.filter_cons, hf, ih seen hmem]
      · have hf : (a.id == i) = false :=
          beq_eq_false_iff_ne.mpr (fun h => hmem (h ▸ h2))
        simp [List.filter_cons, hf, ih seen hmem]
      · by_cases hid : a.id = i
        · have ht : (a.id == i) = true := beq_iff_eq.mpr hid
          have htl : (dedupeGo (a.id :: seen) rest).filter (fun a => a.id == i) = [] :=
            dedupeGo_filter_mem (a.id :: seen) rest i hne
              (by rw [← hid]; exact List.mem_cons_self _ _)
          simp [List.filter_cons, ht, htl]
        · have hf : (a.id == i) = false := beq_eq_false_iff_ne.mpr hid
          have hmem2 : i ∉ a.id :: seen := by
            intro hc
            rcases List.mem_cons.mp hc with hc1 | hc2
            · exact hid hc1.symm
            · exact hmem hc2
          simp [List.filter_cons, hf, ih (a.id :: seen) hmem2]

/-- C4: the join node output plan is the concatenation of the prior
shared plan's actions and the three branch channels in the fixed branch
order, de-duplicated by id keeping the first occurrence: the output is a
sublist of the merged input (so every kept item sits at its
first-occurrence position), and for every non-empty id the output
retains exactly the first occurrence of that id — hence it is free of id
duplicates no matter how many branches contributed. -/
theorem action_join_dedupes (st : SellerState) :
    (actionJoinNode st).actions = dedupeActions (joinMergedInput st) ∧
    List.Sublist (actionJoinNode st).actions (joinMergedInput st) ∧
    (∀ i : String, i ≠ "" →
      (actionJoinNode st).actions.filter (fun a => a.id == i) =
        ((joinMergedInput st).filter (fun a => a.id == i)).take 1 ∧
      ((actionJoinNode st).actions.filter (fun a => a.id == i)).length ≤ 1) := by
  have heq : (actionJoinNode st).actions = dedupeActions (joinMergedInput st) := by
    cases hp : st.action_plan <;> simp [actionJoinNode, joinMergedInput, hp]
  refine ⟨heq, ?_, ?_⟩
  · rw [heq]
    exact dedupeGo_sublist [] _
  · intro i hi
    have hfil := dedupeGo_filter_not_mem [] (joinMergedInput st) i hi (by simp)
    rw [heq]
    refine ⟨hfil, ?_⟩
    rw [show dedupeActions (joinMergedInput st) = dedupeGo [] (joinMergedInput st) from rfl]
    rw [hfil]
    exact List.length_take_le 1 _

/-- Witness for C4: two branches emit an item with id "X"; the joined
plan keeps exactly the first occurrence. -/
theorem action_join_dedupes_witness :
    (actionJoinNode
      { action_plan := some { actions := [{ id := "p" }] },
        listing_branch_actions := [{ id := "X", title := "l" }],
        pricing_branch_actions := [{ id := "X", title := "pr" }] }).actions.filter
        (fun a => a.id == "X") =
      ((joinMergedInput
        { action_plan := some { actions := [{ id := "p" }] },
          listing_branch_actions := [{ id := "X", title := "l" }],
          pricing_branch_actions := [{ id := "X", title := "pr" }] }).filter
        (fun a => a.id == "X")).take 1 :=
  ((action_join_dedupes
    { action_plan := some { actions := [{ id := "p" }] },
      listing_branch_actions := [{ id := "X", title := "l" }],
      pricing_branch_actions := [{ id := "X", title := "pr" }] }).2.2 "X"
    (by decide)).1

/-- C5 counterexample: for the single-item list whose action has an
empty id, `_dedupe_actions` keeps both copies of the doubled list, so
`dedupe_by_id (L ++ L) != dedupe_by_id L`. -/
theorem dedupe_double_not_idempotent :
    dedupeActions ([{ id := "" }] ++ [{ id := "" }]) ≠
      dedupeActions [{ id := "" }] := by
  decide

theorem dedupeSeen_mem (seen : List String) (l : List ActionItem) (x : String)
    (hx : x ∈ seen) : x ∈ dedupeSeen seen l := by
  induction l generalizing seen with
  | nil => simpa [dedupeSeen] using hx
  | cons a rest ih =>
      simp only [dedupeSeen]
      split_ifs with h1 h2
      · exact ih seen hx
      · exact ih seen hx
      · exact ih (a.id :: seen) (List.mem_cons_of_mem _ hx)

theorem id_mem_dedupeSeen (seen : List String) (l : List ActionItem) (a : ActionItem)
    (ha : a ∈ l) (hne : a.id ≠ "") : a.id ∈ dedupeSeen seen l := by
  induction l generalizing seen with
  | nil => cases ha
  | cons b rest ih =>
      simp only [dedupeSeen]
      rcases List.mem_cons.mp ha with hab | ha2
      · subst hab
        split_ifs with h1 h2
        · exact absurd h1 hne
        · exact dedupeSeen_mem seen rest a.id h2
        · exact dedupeSeen_mem _ rest a.id (List.mem_cons_self _ _)
      · split_ifs with h1 h2
        · exact ih seen ha2
        · exact ih seen ha2
        · exact ih (b.id :: seen) ha2

theorem dedupeGo_append (seen : List String) (l1 l2 : List ActionItem) :
    dedupeGo seen (l1 ++ l2) =
      dedupeGo seen l1 ++ dedupeGo (dedupeSeen seen l1) l2 := by
  induction l1 generalizing seen with
  | nil => simp [dedupeGo, dedupeSeen]
  | cons a rest ih =>
      simp only [List.cons_append, dedupeGo, dedupeSeen]
      split_ifs with h1 h2 <;> simp [ih]

theorem dedupeGo_nil_of_all_seen (seen : List String) (l : List ActionItem)
    (h : ∀ a ∈ l, a.id ≠ "" ∧ a.id ∈ seen) : dedupeGo seen l = [] := by
  induction l with
  | nil => rfl
  | cons a rest ih =>
      obtain ⟨hne, hm⟩ := h a (List.mem_cons_self _ _)
      simp only [dedupeGo]
      rw [if_neg hne, if_pos hm]
      exact ih (fun b hb => h b (List.mem_cons_of_mem _ hb))

/-- C5 (amended): for every action list L all of whose items carry a
non-empty id, `dedupe_by_id (L ++ L) = dedupe_by_id L`; the unrestricted
statement fails for items with an empty or missing id, which
`_dedupe_actions` never removes. -/
theorem dedupe_double_idempotent_nonempty_ids (L : List ActionItem)
    (h : ∀ a ∈ L, a.id ≠ "") :
    dedupeActions (L ++ L) = dedupeActions L := by
  unfold dedupeActions
  rw [dedupeGo_append]
  have hnil : dedupeGo (dedupeSeen [] L) L = [] :=
    dedupeGo_nil_of_all_seen _ _
      (fun a ha => ⟨h a ha, id_mem_dedupeSeen [] L a ha (h a ha)⟩)
  rw [hnil, List.append_nil]

/-- Witness for the amended C5 on a concrete list with a duplicate
non-empty id. -/
theorem dedupe_double_idempotent_nonempty_ids_witness :
    dedupeActions ([{ id := "x" }, { id := "y" }] ++ [{ id := "x" }, { id := "y" }]) =
      dedupeActions [{ id := "x" }, { id := "y" }] :=
  dedupe_double_idempotent_nonempty_ids [{ id := "x" }, { id := "y" }] (by decide)

/-! ## Insertion-ordered dict lemmas (for the MergeByKey reducer) -/

theorem dictInsert_of_not_mem {κ α : Type} [DecidableEq κ]
    (d : List (κ × α)) (k : κ) (v : α) (h : k ∉ d.map Prod.fst) :
    dictInsert d k v = d ++ [(k, v)] := by
  induction d with
  | nil => rfl
  | cons p rest ih =>
      obtain ⟨k0, v0⟩ := p
      simp only [List.map_cons, List.mem_cons, not_or] at h
      simp only [dictInsert]
      rw [if_neg (fun hc => h.1 hc.symm)]
      rw [ih h.2]
      rfl

theorem map_substKey_id {κ α : Type} [DecidableEq κ]
    (d : List (κ × α)) (k : κ) (v : α) (h : k ∉ d.map Prod.fst) :
    d.map (fun p => if p.1 = k then (k, v) else p) = d := by
  induction d with
  | nil => rfl
  | cons p rest ih =>
      simp only [List.map_cons, List.mem_cons, not_or] at h
      simp only [List.map_cons]
      rw [if_neg (fun hc => h.1 hc.symm), ih h.2]

theorem dictInsert_of_mem {κ α : Type} [DecidableEq κ]
    (d : List (κ × α)) (k : κ) (v : α)
    (hd : (d.map Prod.fst).Nodup) (h : k ∈ d.map Prod.fst) :
    dictInsert d k v = d.map (fun p => if p.1 = k then (k, v) else p) := by
  induction d with
  | nil => cases h
  | cons p rest ih =>
      obtain ⟨k0, v0⟩ := p
      simp only [List.map_cons, List.nodup_cons] at hd
      by_cases hk : k0 = k
      · subst hk
        simp [dictInsert, map_substKey_id rest k0 v hd.1]
      · have hmem : k ∈ rest.map Prod.fst := by
          simp only [List.map_cons, List.mem_cons] at h
          rcases h with h1 | h2
          · exact absurd h1.symm hk
          · exact h2
        simp only [dictInsert, List.map_cons]
        rw [if_neg hk, if_neg hk, ih hd.2 hmem]

theorem keys_dictInsert {κ α : Type} [DecidableEq κ]
    (d : List (κ × α)) (k : κ) (v : α) :
    (dictInsert d k v).map Prod.fst =
      if k ∈ d.map Prod.fst then d.map Prod.fst else d.map Prod.fst ++ [k] := by
  induction d with
  | nil => simp [dictInsert]
  | cons p rest ih =>
      obtain ⟨k0, v0⟩ := p
      by_cases hk : k0 = k
      · subst hk
        simp [dictInsert]
      · simp only [dictInsert]
        rw [if_neg hk]
        simp only [List.map_cons, ih]
        by_cases hm : k ∈ rest.map Prod.fst
        · rw [if_pos hm, if_pos (by exact List.mem_cons_of_mem _ hm)]
        · rw [if_neg hm,
            if_neg (by simp only [List.mem_cons, not_or]; exact ⟨fun hc => hk hc.symm, hm⟩)]
          simp

theorem nodup_keys_dictInsert {κ α : Type} [DecidableEq κ]
    (d : List (κ × α)) (k : κ) (v : α) (hd : (d.map Prod.fst).Nodup) :
    ((dictInsert d k v).map Prod.fst).Nodup := by
  rw [keys_dictInsert]
  split_ifs with hm
  · exact hd
  · rw [List.nodup_append]
    exact ⟨hd, List.nodup_singleton k,
      fun x hx => by simp only [List.mem_singleton]; exact fun hc => hm (hc ▸ hx)⟩

theorem mem_dictInsert {κ α : Type} [DecidableEq κ]
    (d : List (κ × α)) (k : κ) (v : α) (p : κ × α)
    (hp : p ∈ dictInsert d k v) : p ∈ d ∨ p = (k, v) := by
  induction d with
  | nil => simpa [dictInsert] using hp
  | cons q rest ih =>
      obtain ⟨k0, v0⟩ := q
      simp only [dictInsert] at hp
      split_ifs at hp with h
      · rcases List.mem_cons.mp hp with h1 | h2
        · exact Or.inr h1
        · exact Or.inl (List.mem_cons_of_mem _ h2)
      · rcases List.mem_cons.mp hp with h1 | h2
        · exact Or.inl (h1 ▸ List.mem_cons_self _ _)
        · rcases ih h2 with h3 | h4
          · exact Or.inl (List.mem_cons_of_mem _ h3)
          · exact Or.inr h4

theorem foldl_dictInsert_keys {κ α : Type} [DecidableEq κ]
    (key : α → κ) (l : List α) (d : List (κ × α))
    (hd : (d.map Prod.fst).Nodup) :
    ((l.foldl (fun acc a => dictInsert acc (key a) a) d).map Prod.fst) =
      d.map Prod.fst ++
        dedupFirst ((l.map key).filter (fun x => decide (x ∉ d.map Prod.fst))) := by
  induction l generalizing d with
  | nil => simp [dedupFirst]
  | cons a t ih =>
      simp only [List.foldl_cons, List.map_cons]
      by_cases hm : key a ∈ d.map Prod.fst
      · have hkeys : (dictInsert d (key a) a).map Prod.fst = d.map Prod.fst := by
          rw [keys_dictInsert, if_pos hm]
        have hnd : ((dictInsert d (key a) a).map Prod.fst).Nodup := by
          rw [hkeys]; exact hd
        rw [ih _ hnd, hkeys, List.filter_cons]
        simp [hm]
      · have hkeys : (dictInsert d (key a) a).map Prod.fst = d.map Prod.fst ++ [key a] := by
          rw [keys_dictInsert, if_neg hm]
        have hnd : ((dictInsert d (key a) a).map Prod.fst).Nodup :=
          nodup_keys_dictInsert d _ _ hd
        rw [ih _ hnd, hkeys, List.filter_cons]
        have hff : (t.map key).filter
              (fun x => decide (x ∉ d.map Prod.fst ++ [key a])) =
            ((t.map key).filter (fun x => decide (x ∉ d.map Prod.fst))).filter
              (fun x => decide (x ≠ key a)) := by
          rw [List.filter_filter]
          apply List.filter_congr
          intro x hx
          by_cases h1 : x ∈ List.map Prod.fst d <;> by_cases h2 : x = key a <;>
            simp [h1, h2]
        rw [hff]
        simp [hm, dedupFirst, List.append_assoc]

theorem getElem_dictInsert {κ α : Type} [DecidableEq κ]
    (d : List (κ × α)) (k : κ) (v : α)
    (hd : (d.map Prod.fst).Nodup) (hm : k ∈ d.map Prod.fst)
    (i : Nat) (hi : i < d.length) :
    (dictInsert d k v)[i]? =
      some (if (d.get ⟨i, hi⟩).1 = k then (k, v) else d.get ⟨i, hi⟩) := by
  rw [dictInsert_of_mem d k v hd hm, List.getElem?_map,
    List.getElem?_eq_getElem hi]
  simp [List.get_eq_getElem]

theorem foldl_dictInsert_getElem {κ α : Type} [DecidableEq κ]
    (key : α → κ) (l : List α) (d : List (κ × α))
    (hd : (d.map Prod.fst).Nodup) (i : Nat) (hi : i < d.length) :
    (l.foldl (fun acc a => dictInsert acc (key a) a) d)[i]? =
      some ((d.get ⟨i, hi⟩).1,
        (l.filter (fun a => decide (key a = (d.get ⟨i, hi⟩).1))).getLastD
          (d.get ⟨i, hi⟩).2) := by
  induction l generalizing d with
  | nil =>
      simp [List.getElem?_eq_getElem hi, List.get_eq_getElem]
  | cons a t ih =>
      simp only [List.foldl_cons]
      by_cases hm : key a ∈ d.map Prod.fst
      · have hlen : (dictInsert d (key a) a).length = d.length := by
          rw [dictInsert_of_mem d _ _ hd hm]
          simp
        have hnd : ((dictInsert d (key a) a).map Prod.fst).Nodup :=
          nodup_keys_dictInsert d _ _ hd
        have hi2 : i < (dictInsert d (key a) a).length := by
          rw [hlen]; exact hi
        rw [ih (dictInsert d (key a) a) hnd hi2]
        have hget : (dictInsert d (key a) a).get ⟨i, hi2⟩ =
            if (d.get ⟨i, hi⟩).1 = key a then (key a, a) else d.get ⟨i, hi⟩ := by
          have h0 := getElem_dictInsert d (key a) a hd hm i hi
          rw [List.getElem?_eq_getElem hi2] at h0
          simpa [List.get_eq_getElem] using h0
        rw [hget]
        by_cases hkey : (d.get ⟨i, hi⟩).1 = key a
        · rw [if_pos hkey, List.filter_cons,
            if_pos (show (decide (key a = (d.get ⟨i, hi⟩).1)) = true by rw [hkey]; simp),
            List.getLastD_cons, hkey]
        · rw [if_neg hkey, List.filter_cons]
          have hc : (decide (key a = (d.get ⟨i, hi⟩).1)) = false := by
            simp only [decide_eq_false_iff_not]
            exact fun h => hkey h.symm
          simp only [hc]
          rfl
      · have hins : dictInsert d (key a) a = d ++ [(key a, a)] :=
          dictInsert_of_not_mem _ _ _ hm
        have hnd : ((dictInsert d (key a) a).map Prod.fst).Nodup :=
          nodup_keys_dictInsert d _ _ hd
        have hi2 : i < (dictInsert d (key a) a).length := by
          rw [hins, List.length_append]
          exact Nat.lt_of_lt_of_le hi (Nat.le_add_right _ _)
        rw [ih (dictInsert d (key a) a) hnd hi2]
        have hget : (dictInsert d (key a) a).get ⟨i, hi2⟩ = d.get ⟨i, hi⟩ := by
          have h0 : (dictInsert d (key a) a)[i]? = d[i]? := by
            rw [hins]
            exact List.getElem?_append_left hi
          rw [List.getElem?_eq_getElem hi2, List.getElem?_eq_getElem hi] at h0
          simpa [List.get_eq_getElem] using h0
        rw [hget, List.filter_cons]
        have hc : (decide (key a = (d.get ⟨i, hi⟩).1)) = false := by
          simp only [decide_eq_false_iff_not]
          intro hcontra
          apply hm
          rw [hcontra]
          exact List.mem_map_of_mem Prod.fst (List.get_mem d i hi)
        simp only [hc]
        rfl

theorem foldl_dictInsert_fresh {κ α : Type} [DecidableEq κ]
    (key : α → κ) (l : List α) (d : List (κ × α))
    (hdisj : ∀ a ∈ l, key a ∉ d.map Prod.fst) (hl : (l.map key).Nodup) :
    l.foldl (fun acc a => dictInsert acc (key a) a) d =
      d ++ l.map (fun a => (key a, a)) := by
  induction l generalizing d with
  | nil => simp
  | cons a t ih =>
      simp only [List.foldl_cons, List.map_cons]
      rw [dictInsert_of_not_mem _ _ _ (hdisj a (List.mem_cons_self _ _))]
      simp only [List.map_cons, List.nodup_cons] at hl
      have hdisj2 : ∀ b ∈ t, key b ∉ (d ++ [(key a, a)]).map Prod.fst := by
        intro b hb
        simp only [List.map_append, List.mem_append, List.map_cons, List.map_nil,
          List.mem_singleton, not_or]
        refine ⟨hdisj b (List.mem_cons_of_mem _ hb), ?_⟩
        intro hc
        exact hl.1 (hc ▸ List.mem_map_of_mem key hb)
      rw [ih (d ++ [(key a, a)]) hdisj2 hl.2, List.append_assoc]
      rfl

theorem foldl_dictInsert_snd_key {κ α : Type} [DecidableEq κ]
    (key : α → κ) (l : List α) (d : List (κ × α))
    (h : ∀ p ∈ d, key p.2 = p.1) :
    ∀ p ∈ l.foldl (fun acc a => dictInsert acc (key a) a) d, key p.2 = p.1 := by
  induction l generalizing d with
  | nil => exact h
  | cons a t ih =>
      simp only [List.foldl_cons]
      apply ih
      intro p hp
      rcases mem_dictInsert d (key a) a p hp with h1 | h2
      · exact h p h1
      · rw [h2]

/-- C9: when the existing per-product list carries pairwise-distinct
product ids, the `_merge_by_product_id` reducer returns a list whose key
sequence is the existing keys in their original order followed by the
new incoming keys in first-arrival order, and whose entry at each
original position i is the last incoming item with that product id
(replacement in place) or the untouched existing item when no incoming
item shares its id. -/
theorem merge_by_product_id_spec {α : Type} (key : α → Option String)
    (ex inc : List α) (hex : (ex.map key).Nodup) :
    (mergeByProductId key ex inc).map key =
      ex.map key ++
        dedupFirst ((inc.map key).filter (fun k => decide (k ∉ ex.map key))) ∧
    ∀ i (hi : i < ex.length),
      (mergeByProductId key ex inc)[i]? =
        some ((inc.filter
            (fun a => decide (key a = key (ex.get ⟨i, hi⟩)))).getLastD
          (ex.get ⟨i, hi⟩)) := by
  have hbase : (ex ++ inc).foldl (fun acc a => dictInsert acc (key a) a) [] =
      inc.foldl (fun acc a => dictInsert acc (key a) a)
        (ex.map (fun a => (key a, a))) := by
    rw [List.foldl_append]
    have h0 := foldl_dictInsert_fresh key ex [] (by simp) hex
    rw [h0]
    rfl
  have hkeys0 : (ex.map (fun a => (key a, a))).map Prod.fst = ex.map key := by
    rw [List.map_map]
    rfl
  have hnd0 : ((ex.map (fun a => (key a, a))).map Prod.fst).Nodup := by
    rw [hkeys0]; exact hex
  constructor
  · unfold mergeByProductId
    rw [hbase, List.map_map]
    have hinv := foldl_dictInsert_snd_key key inc (ex.map (fun a => (key a, a)))
      (by
        intro p hp
        obtain ⟨a, _, rfl⟩ := List.mem_map.mp hp
        rfl)
    have hmc : (inc.foldl (fun acc a => dictInsert acc (key a) a)
          (ex.map (fun a => (key a, a)))).map (key ∘ Prod.snd) =
        (inc.foldl (fun acc a => dictInsert acc (key a) a)
          (ex.map (fun a => (key a, a)))).map Prod.fst :=
      List.map_congr_left (fun p hp => hinv p hp)
    rw [hmc, foldl_dictInsert_keys key inc _ hnd0, hkeys0]
    congr 2
    apply List.filter_congr
    intro x hx
    exact decide_eq_decide.mpr Iff.rfl
  · intro i hi
    unfold mergeByProductId
    rw [hbase]
    have hlen : i < (ex.map (fun a => (key a, a))).length := by
      rw [List.length_map]; exact hi
    rw [List.getElem?_map, foldl_dictInsert_getElem key inc _ hnd0 i hlen]
    have hget : (ex.map (fun a => (key a, a))).get ⟨i, hlen⟩ =
        (key (ex.get ⟨i, hi⟩), ex.get ⟨i, hi⟩) := by
      simp [List.get_eq_getElem]
    rw [hget]
    rfl

/-- Witness for C9: an incoming item replaces the existing item with the
same product id at position 0. -/
theorem merge_by_product_id_spec_witness :
    (mergeByProductId (fun p : Option String × Nat => p.1)
      [(some "a", 1), (some "b", 2)] [(some "a", 9), (some "c", 3)])[0]? =
      some (some "a", 9) := by
  have h := (merge_by_product_id_spec (fun p : Option String × Nat => p.1)
    [(some "a", 1), (some "b", 2)] [(some "a", 9), (some "c", 3)] (by decide)).2 0
    (by decide)
  rw [h]
  decide
